import Mathlib

/-!
Verification development for the distributed build cache.

This file gives a shallow embedding of the cache data plane and the
pruning controller of the repository:

* `internal/cache` (`Service.Get`, `Service.Put`, `Service.Delete`,
  `Service.List`, `Service.GetTotalSize`, `Service.sanitizeKey`),
* `pkg/grpc/server/cache_server.go` (`CacheServer.Get`, `CacheServer.Put`,
  `CacheServer.Contains`),
* `internal/pruning/service.go` (`Service.RunPruning`,
  `Service.selectEntriesForDeletion`, `Service.shouldDelete`).

Strings are modelled as lists of characters, byte streams as lists of
naturals, times as integers (nanoseconds, matching Go `time.Duration`
arithmetic), and the object-store backend as an association list from
object names to objects.  The Cloud Storage client itself is not part of
the repository; its committed-on-close writer semantics and the outcomes
of `Attrs` / `Update` / `NewReader` are modelled after the specification
of the object-store adapter (close commits the bytes written so far;
stat distinguishes an absent object from a transient backend error).
SHA-256 is implemented executably so that digest-mismatch scenarios can
be stated on concrete inputs.
-/

set_option maxRecDepth 100000

namespace BuildCache

/-- Strings of the Go source, modelled as lists of characters so that all
definitions compute by structural recursion. -/
abbrev Str := List Char

/-- Nanoseconds per hour, matching Go `time.Hour`. -/
def nsPerHour : Int := 3600 * 1000000000

/-- One character-for-character replacement, the model of
`strings.ReplaceAll(s, p, r)` for a single-character pattern `p`. -/
def replaceChar (p r : Char) (cs : Str) : Str :=
  cs.map (fun c => if c = p then r else c)

/-- Model of `Service.sanitizeKey` (internal/cache service, lines 254-266):
replace `/`, `\`, `:` by `_`, prefix a leading `.` with `cache_`, and
prepend `cache/`. -/
def sanitizeKey (key : Str) : Str :=
  let s1 := replaceChar '/' '_' key
  let s2 := replaceChar '\\' '_' s1
  let s3 := replaceChar ':' '_' s2
  let s4 := match s3 with
    | '.' :: _ => "cache_".toList ++ s3
    | _ => s3
  "cache/".toList ++ s4

/-- The derived object name for an `(instance, hash)` pair: the gRPC server
builds the cache key `instance + "/" + hash`
(pkg/grpc/server/cache_server.go line 52) and the cache service sanitizes
that whole key. -/
def objectName (instanceName hash : Str) : Str :=
  sanitizeKey (instanceName ++ '/' :: hash)

/-- Modelled from the spec: the instance grammar of the data model —
a non-empty string over the alphabet of ASCII letters, digits,
underscore, dash and slash (the `..`-component
exclusion is vacuous on this alphabet, which has no `.`).  The source
under `src/` never validates instances on the data path, so the grammar
exists only in the specification. -/
def validInstance (s : Str) : Bool :=
  decide (s ≠ []) &&
    s.all (fun c => c.isAlpha || c.isDigit || c = '_' || c = '-' || c = '/')

example : sanitizeKey "teamA/abc".toList = "cache/teamA_abc".toList := by decide

example : sanitizeKey ".x:y".toList = "cache/cache_.x_y".toList := by decide

/-! SHA-256, the digest function of the data model (`crypto/sha256` in the
source).  Words are naturals reduced modulo `2 ^ 32`. -/

/-- Reduction modulo the 32-bit word size. -/
def m32 (x : Nat) : Nat := x % 4294967296

/-- 32-bit addition. -/
def add32 (a b : Nat) : Nat := m32 (a + b)

/-- Right rotation of a 32-bit word by `k` places. -/
def rotr32 (k x : Nat) : Nat := m32 ((x >>> k) ||| (x <<< (32 - k)))

/-- The SHA-256 choice function. -/
def shaCh (e f g : Nat) : Nat := (e &&& f) ^^^ ((e ^^^ 4294967295) &&& g)

/-- The SHA-256 majority function. -/
def shaMaj (a b c : Nat) : Nat := (a &&& b) ^^^ (a &&& c) ^^^ (b &&& c)

/-- The big sigma-0 compression function. -/
def bSig0 (x : Nat) : Nat := rotr32 2 x ^^^ rotr32 13 x ^^^ rotr32 22 x

/-- The big sigma-1 compression function. -/
def bSig1 (x : Nat) : Nat := rotr32 6 x ^^^ rotr32 11 x ^^^ rotr32 25 x

/-- The small sigma-0 message-schedule function. -/
def sSig0 (x : Nat) : Nat := rotr32 7 x ^^^ rotr32 18 x ^^^ (x >>> 3)

/-- The small sigma-1 message-schedule function. -/
def sSig1 (x : Nat) : Nat := rotr32 17 x ^^^ rotr32 19 x ^^^ (x >>> 10)

/-- The SHA-256 round constants, written in decimal. -/
def shaK : List Nat :=
  [1116352408, 1899447441, 3049323471, 3921009573, 961987163,
   1508970993, 2453635748, 2870763221, 3624381080, 310598401,
   607225278, 1426881987, 1925078388, 2162078206, 2614888103,
   3248222580, 3835390401, 4022224774, 264347078, 604807628,
   770255983, 1249150122, 1555081692, 1996064986, 2554220882,
   2821834349, 2952996808, 3210313671, 3336571891, 3584528711,
   113926993, 338241895, 666307205, 773529912, 1294757372,
   1396182291, 1695183700, 1986661051, 2177026350, 2456956037,
   2730485921, 2820302411, 3259730800, 3345764771, 3516065817,
   3600352804, 4094571909, 275423344, 430227734, 506948616,
   659060556, 883997877, 958139571, 1322822218, 1537002063,
   1747873779, 1955562222, 2024104815, 2227730452, 2361852424,
   2428436474, 2756734187, 3204031479, 3329325298]

/-- The SHA-256 initial hash value, written in decimal. -/
def shaH0 : List Nat :=
  [1779033703, 3144134277, 1013904242, 2773480762,
   1359893119, 2600822924, 528734635, 1541459225]

/-- Fuelled list chunking; the fuel is instantiated with the list length so
that the recursion is structural and computes inside the kernel. -/
def chunksOfAux (k : Nat) : Nat → List α → List (List α)
  | _, [] => []
  | 0, _ :: _ => []
  | fuel + 1, a :: rest => (a :: rest).take k :: chunksOfAux k fuel ((a :: rest).drop k)

/-- Split a list into consecutive chunks of size `k` (the last chunk may be
shorter). -/
def chunksOf (k : Nat) (l : List α) : List (List α) := chunksOfAux k l.length l

/-- Big-endian 8-byte encoding of a natural number. -/
def beBytes8 (n : Nat) : List Nat :=
  [(n >>> 56) % 256, (n >>> 48) % 256, (n >>> 40) % 256, (n >>> 32) % 256,
   (n >>> 24) % 256, (n >>> 16) % 256, (n >>> 8) % 256, n % 256]

/-- SHA-256 message padding: a `0x80` byte, zeros up to 56 modulo 64, and
the big-endian 64-bit bit length. -/
def padMessage (msg : List Nat) : List Nat :=
  let L := msg.length
  let z := (120 - ((L + 1) % 64)) % 64
  msg ++ 0x80 :: List.replicate z 0 ++ beBytes8 (8 * L)

/-- Big-endian word assembly of a four-byte group. -/
def wordOfBytes (bs : List Nat) : Nat :=
  match bs with
  | [a, b, c, d] => ((a * 256 + b) * 256 + c) * 256 + d
  | _ => 0

/-- Extend the sixteen block words by `n` scheduled words. -/
def extendSchedule : Nat → List Nat → List Nat
  | 0, ws => ws
  | n + 1, ws =>
    let i := ws.length
    let w := add32 (add32 (sSig1 (ws.getD (i - 2) 0)) (ws.getD (i - 7) 0))
                   (add32 (sSig0 (ws.getD (i - 15) 0)) (ws.getD (i - 16) 0))
    extendSchedule n (ws ++ [w])

/-- One SHA-256 compression round; the state is the eight working
variables, the input the round constant paired with the scheduled word. -/
def shaRound (st : List Nat) (kw : Nat × Nat) : List Nat :=
  match st with
  | [a, b, c, d, e, f, g, h] =>
    let t1 := add32 (add32 (add32 h (bSig1 e)) (add32 (shaCh e f g) kw.1)) kw.2
    let t2 := add32 (bSig0 a) (shaMaj a b c)
    [add32 t1 t2, a, b, c, add32 d t1, e, f, g]
  | _ => st

/-- Compress one 64-byte block into the running hash state. -/
def shaCompress (h : List Nat) (block : List Nat) : List Nat :=
  let ws := extendSchedule 48 ((chunksOf 4 block).map wordOfBytes)
  let v := (shaK.zip ws).foldl shaRound h
  (h.zip v).map (fun p => add32 p.1 p.2)

/-- The SHA-256 digest of a byte sequence, as 32 bytes. -/
def sha256Bytes (msg : List Nat) : List Nat :=
  let h := (chunksOf 64 (padMessage msg)).foldl shaCompress shaH0
  h.flatMap (fun w => [(w >>> 24) % 256, (w >>> 16) % 256, (w >>> 8) % 256, w % 256])

/-- Lowercase hexadecimal digit. -/
def hexChar (n : Nat) : Char :=
  if n < 10 then Char.ofNat (48 + n) else Char.ofNat (87 + n)

/-- The lowercase-hex SHA-256 digest of a byte sequence: the model of
`hash(b)` in the data model, computed by `crypto/sha256` plus `%x`
formatting in the source. -/
def sha256Hex (msg : List Nat) : Str :=
  (sha256Bytes msg).flatMap (fun b => [hexChar (b / 16), hexChar (b % 16)])

/-- Known-answer check: the SHA-256 digest of the empty message. -/
theorem sha256Hex_empty :
    sha256Hex [] =
      "e3b0c44298fc1c149afbf4c8996fb92427ae41e4649b934ca495991b7852b855".toList := by
  decide

/-- Known-answer check: the SHA-256 digest of the ASCII bytes of `abc`. -/
theorem sha256Hex_abc :
    sha256Hex [0x61, 0x62, 0x63] =
      "ba7816bf8f01cfea414140de5dae2223b00361a396177a9cb410ff61f20015ad".toList := by
  decide

/-! The object-store backend.  The vendor client is external to the
repository; the model follows the object-store adapter of the
specification: `stat` distinguishes an absent object from a transient
backend error, a metadata patch either succeeds or fails non-fatally, and
closing a writer commits exactly the bytes written to it so far. -/

/-- A stored object: its bytes, content type, the user metadata written by
`Service.Put` (`cache_key`, `stored_at`, `last_accessed`), and the
store-maintained update timestamp.  `metaLastAccessed` is `none` for an
object whose metadata lacks a parsable `last_accessed` field. -/
structure Obj where
  data : List Nat
  contentType : Str
  metaCacheKey : Str
  metaStoredAt : Int
  metaLastAccessed : Option Int
  updatedAt : Int
  deriving DecidableEq, Repr

/-- The bucket: an association list from object names to objects. -/
abbrev Store := List (Str × Obj)

/-- Look an object up by name. -/
def storeFind : Store → Str → Option Obj
  | [], _ => none
  | (k, o) :: rest, n => if k = n then some o else storeFind rest n

/-- Commit an object under a name, overwriting any previous object. -/
def storeSet : Store → Str → Obj → Store
  | [], n, o => [(n, o)]
  | (k, x) :: rest, n, o =>
    if k = n then (n, o) :: rest else (k, x) :: storeSet rest n o

/-- Patch the `last_accessed` user metadata of a named object to `t`; the
store also refreshes its update timestamp.  Absent names are unchanged. -/
def storeTouch : Store → Str → Int → Store
  | [], _, _ => []
  | (k, o) :: rest, n, t =>
    if k = n then
      (k, { o with metaLastAccessed := some t, updatedAt := t }) :: storeTouch rest n t
    else (k, o) :: storeTouch rest n t

/-- A cached build artifact as returned by the cache service
(`CacheEntry` in the source). -/
structure CacheEntry where
  key : Str
  size : Int
  lastAccessed : Int
  contentType : Str
  hash : Str
  deriving DecidableEq, Repr

/-- Backend outcomes for one pass over the get path: whether `Attrs` on an
existing object fails transiently, whether the `last_accessed` metadata
patch succeeds, whether `NewReader` succeeds, and — for the gRPC layer —
whether the chunk read loop and the stream sends succeed. -/
structure GetEnv where
  attrsTransient : Bool
  updateOk : Bool
  readerOk : Bool
  readMidOk : Bool
  sendOk : Bool
  deriving DecidableEq, Repr

/-- The all-success backend environment. -/
def envOk : GetEnv :=
  { attrsTransient := false, updateOk := true, readerOk := true,
    readMidOk := true, sendOk := true }

/-- Failure kinds of `Service.Get`: a miss (`storage.ErrObjectNotExist`),
an attribute fetch failure, or a reader-creation failure. -/
inductive GetErr where
  | miss
  | attrsFailed
  | readerFailed
  deriving DecidableEq, Repr

/-- Model of `Service.Get` (internal/cache service, lines 46-102):
sanitize the key, fetch attributes (absent object is a miss, a transient
backend error is an attribute failure), attempt the `last_accessed`
metadata patch — a failure is only logged — then open the reader and
return the bytes together with the entry built from the pre-update
attributes. -/
def cacheGet (st : Store) (env : GetEnv) (key : Str) (now : Int) :
    Store × Except GetErr (List Nat × CacheEntry) :=
  let name := sanitizeKey key
  match storeFind st name with
  | none => (st, .error .miss)
  | some obj =>
    if env.attrsTransient then (st, .error .attrsFailed)
    else
      let st1 := if env.updateOk then storeTouch st name now else st
      if env.readerOk then
        (st1, .ok (obj.data,
          { key := key, size := (obj.data.length : Int),
            lastAccessed := obj.updatedAt, contentType := obj.contentType,
            hash := [] }))
      else (st1, .error .readerFailed)

/-- The input stream a `Service.Put` call reads: the chunks delivered by
the pipe, and whether the pipe reports an error after them (an `io.Copy`
failure) instead of a normal end of stream. -/
structure PipeInput where
  chunks : List (List Nat)
  errorAtEnd : Bool
  deriving DecidableEq, Repr

/-- Failure kind of `Service.Put`: the copy from the input stream failed. -/
inductive PutErr where
  | copyFailed
  deriving DecidableEq, Repr

/-- Model of `Service.Put` (internal/cache service, lines 104-152):
sanitize the key, open a writer with `cache_key` / `stored_at` /
`last_accessed` metadata, copy the stream into it while hashing (the
computed digest is only logged, never compared), and close the writer.
When the copy fails the code still calls `writer.Close()`, which per the
adapter semantics commits the bytes written so far; only the error return
differs. -/
def cachePut (st : Store) (key : Str) (input : PipeInput) (contentType : Str)
    (now : Int) : Store × Except PutErr Unit :=
  let name := sanitizeKey key
  let obj : Obj :=
    { data := input.chunks.flatten, contentType := contentType,
      metaCacheKey := key, metaStoredAt := now, metaLastAccessed := some now,
      updatedAt := now }
  if input.errorAtEnd then (storeSet st name obj, .error .copyFailed)
  else (storeSet st name obj, .ok ())

/-! The gRPC surface (pkg/grpc/server/cache_server.go). -/

/-- A content digest of the RPC surface. -/
structure Digest where
  hash : Str
  sizeBytes : Int
  deriving DecidableEq, Repr

/-- The metadata field of the first `Put` request message. -/
structure PutMetadata where
  digest : Option Digest
  instanceName : Str
  contentType : Str
  deriving DecidableEq, Repr

/-- A client `Put` stream: the first message's metadata field and data
chunk, the data chunks of the following messages, and whether `Recv`
fails after those messages instead of returning end-of-stream. -/
structure PutStream where
  metadata : Option PutMetadata
  firstData : List Nat
  rest : List (List Nat)
  recvError : Bool
  deriving DecidableEq, Repr

/-- Transport status codes produced by the server handlers. -/
inductive RpcErr where
  | invalidArgument (msg : Str)
  | notFound (msg : Str)
  | internal (msg : Str)
  deriving DecidableEq, Repr

/-- Decidable equality of `Except` results, so that concrete runs of the
model evaluate inside proofs. -/
instance {ε α : Type} [DecidableEq ε] [DecidableEq α] :
    DecidableEq (Except ε α) := fun x y =>
  match x, y with
  | .ok a, .ok b =>
    if h : a = b then isTrue (by rw [h])
    else isFalse (by intro hc; cases hc; exact h rfl)
  | .ok _, .error _ => isFalse (by intro hc; cases hc)
  | .error _, .ok _ => isFalse (by intro hc; cases hc)
  | .error e, .error f =>
    if h : e = f then isTrue (by rw [h])
    else isFalse (by intro hc; cases hc; exact h rfl)

/-- The `Put` response: the echoed digest and the reported size. -/
structure PutResponse where
  digest : Digest
  size : Int
  deriving DecidableEq, Repr

/-- Model of `CacheServer.Put` (cache_server.go lines 112-225): require the
metadata and digest fields, build the key `instance + "/" + hash`, and
forward the received chunks to `Service.Put` through a pipe.  The
forwarding goroutine closes the pipe without an error even when `Recv`
fails, so `Service.Put` always sees a normally terminated stream of the
chunks received before the failure and commits them; the handler then
reads the goroutine's error and reports `Internal`.  On success the
response size is the client-declared `digest.size_bytes`. -/
def serverPut (st : Store) (input : PutStream) (now : Int) :
    Store × Except RpcErr PutResponse :=
  match input.metadata with
  | none => (st, .error (.invalidArgument "metadata is required".toList))
  | some md =>
    match md.digest with
    | none => (st, .error (.invalidArgument "digest is required".toList))
    | some d =>
      let key := md.instanceName ++ '/' :: d.hash
      let delivered : PipeInput :=
        { chunks := input.firstData :: input.rest, errorAtEnd := false }
      let r := cachePut st key delivered md.contentType now
      match r.2 with
      | .error _ => (r.1, .error (.internal "failed to store cache entry".toList))
      | .ok _ =>
        if input.recvError then
          (r.1, .error (.internal "failed to stream data".toList))
        else
          (r.1, .ok { digest := d, size := d.sizeBytes })

/-- Model of `CacheServer.Get` (cache_server.go lines 34-109): require the
digest field, build the key, call `Service.Get`, and map every failure of
it to `NotFound` with message `cache miss`; on success stream the bytes
in 64 KiB chunks, where a read failure or a send failure yields
`Internal`. -/
def serverGet (st : Store) (env : GetEnv) (digest : Option Digest)
    (instanceName : Str) (now : Int) :
    Store × Except RpcErr (List (List Nat)) :=
  match digest with
  | none => (st, .error (.invalidArgument "digest is required".toList))
  | some d =>
    let key := instanceName ++ '/' :: d.hash
    let r := cacheGet st env key now
    match r.2 with
    | .error _ => (r.1, .error (.notFound "cache miss".toList))
    | .ok (bytes, _) =>
      if env.readMidOk then
        if env.sendOk then (r.1, .ok (chunksOf 65536 bytes))
        else (r.1, .error (.internal "failed to stream data".toList))
      else (r.1, .error (.internal "failed to read cache data".toList))

/-- The per-digest probe loop of `CacheServer.Contains`: each digest is
probed by a full `Service.Get` call whose store side effects are threaded
into the following probes; a probe exists exactly when the call returned
no error. -/
def containsLoop (env : GetEnv) (instanceName : Str) (now : Int) :
    Store → List Digest → Store × List (Digest × Bool)
  | st, [] => (st, [])
  | st, d :: rest =>
    let key := instanceName ++ '/' :: d.hash
    let r := cacheGet st env key now
    let ex := match r.2 with
      | .ok _ => true
      | .error _ => false
    let t := containsLoop env instanceName now r.1 rest
    (t.1, (d, ex) :: t.2)

/-- Model of `CacheServer.Contains` (cache_server.go lines 228-271): an
empty digest list is an `InvalidArgument`; otherwise every digest is
probed via the full get path and the call always succeeds, reporting one
boolean per digest in input order. -/
def serverContains (st : Store) (env : GetEnv) (digests : List Digest)
    (instanceName : Str) (now : Int) :
    Store × Except RpcErr (List (Digest × Bool)) :=
  match digests with
  | [] => (st, .error (.invalidArgument "at least one digest is required".toList))
  | _ =>
    let r := containsLoop env instanceName now st digests
    (r.1, .ok r.2)

/-! The pruning controller (internal/pruning/service.go). -/

/-- Pruning configuration (`pruning.Config`). -/
structure PruneConfig where
  maxCacheSize : Int
  retentionDays : Int
  deriving DecidableEq, Repr

/-- Model of `Service.shouldDelete` (service.go lines 207-228): age above a
week deletes, a large object (above 100 MiB) older than three days
deletes, age below 24 hours keeps, anything else deletes. -/
def shouldDelete (e : CacheEntry) (now : Int) : Bool :=
  let age := now - e.lastAccessed
  if age > 7 * 24 * nsPerHour then true
  else if e.size > 100 * 1024 * 1024 && age > 3 * 24 * nsPerHour then true
  else if age < 24 * nsPerHour then false
  else true

/-- The first pass of `selectEntriesForDeletion` (service.go lines
148-156): entries last accessed before the retention cutoff go to the
deletion list — each decrementing the byte deficit — and the remainder
become LRU candidates, both in input order.  Returns
`(toDelete, candidates, bytesToRemove)`. -/
def pruneFirstPass (cutoff : Int) :
    List CacheEntry → Int → List CacheEntry × List CacheEntry × Int
  | [], btr => ([], [], btr)
  | e :: rest, btr =>
    if e.lastAccessed < cutoff then
      let t := pruneFirstPass cutoff rest (btr - e.size)
      (e :: t.1, t.2.1, t.2.2)
    else
      let t := pruneFirstPass cutoff rest btr
      (t.1, e :: t.2.1, t.2.2)

/-- Insertion into a list sorted by ascending `lastAccessed`. -/
def insertByLastAccessed (e : CacheEntry) : List CacheEntry → List CacheEntry
  | [] => [e]
  | x :: xs =>
    if e.lastAccessed ≤ x.lastAccessed then e :: x :: xs
    else x :: insertByLastAccessed e xs

/-- Ascending sort by `lastAccessed`, the model of the `sort.Slice` call of
service.go lines 161-163.  `sort.Slice` leaves the order of equal keys
unspecified; this stable sort is one admissible outcome. -/
def sortByLastAccessed (l : List CacheEntry) : List CacheEntry :=
  l.foldr insertByLastAccessed []

/-- State of the first LRU loop of `selectEntriesForDeletion` (service.go
lines 166-179).  The Go loop ranges over the slice header captured at
loop entry while `candidates = append(candidates[:i], candidates[i+1:]...)`
rewrites the shared backing array in place, so the model carries the
backing array (constant length), the current slice length, the byte
deficit, the accumulated deletion list, and whether a slice-bounds panic
occurred. -/
structure LruLoopState where
  backing : List CacheEntry
  cur : Nat
  btr : Int
  toDelete : List CacheEntry
  panicked : Bool
  deriving DecidableEq, Repr

/-- One pass of the first LRU loop over the captured index range.  At index
`i` the loop breaks when the deficit is exhausted, reads the element at
`i` from the mutated backing array, and on `shouldDelete` appends it to
the deletion list and performs the in-place
`append(candidates[:i], candidates[i+1:]...)`: elements `i+1 ≤ pos < cur`
shift left one place, the tail from `cur - 1` keeps its stale values, and
the slice length drops by one.  When `i + 1` exceeds the current length
the re-slice panics, as it does in Go. -/
def lruHeuristicLoop (now : Int) (s : LruLoopState) : List Nat → LruLoopState
  | [] => s
  | i :: rest =>
    if s.btr ≤ 0 then s
    else
      match s.backing.get? i with
      | none => s
      | some entry =>
        if shouldDelete entry now then
          if s.cur < i + 1 then { s with panicked := true }
          else
            let a := s.backing
            let a1 := a.take i ++ (a.drop (i + 1)).take (s.cur - i - 1) ++
                      a.drop (s.cur - 1)
            lruHeuristicLoop now
              { backing := a1, cur := s.cur - 1, btr := s.btr - entry.size,
                toDelete := s.toDelete ++ [entry], panicked := s.panicked } rest
        else lruHeuristicLoop now s rest

/-- The second LRU loop (service.go lines 182-188): walk the remaining
candidates and delete unconditionally until the deficit is exhausted. -/
def lruFallbackLoop : Int → List CacheEntry → List CacheEntry → List CacheEntry
  | _, toDelete, [] => toDelete
  | btr, toDelete, e :: rest =>
    if btr ≤ 0 then toDelete
    else lruFallbackLoop (btr - e.size) (toDelete ++ [e]) rest

/-- Model of `Service.selectEntriesForDeletion` (service.go lines 141-204):
the retention sweep, then — when a deficit remains and candidates exist —
the sort, the heuristic loop and the unconditional fallback loop.  The
result is `none` when the heuristic loop's re-slice panics. -/
def selectEntriesForDeletion (cfg : PruneConfig) (now : Int)
    (entries : List CacheEntry) (bytesToRemove : Int) :
    Option (List CacheEntry) :=
  let retentionCutoff := now - cfg.retentionDays * 24 * nsPerHour
  let p := pruneFirstPass retentionCutoff entries bytesToRemove
  let toDelete := p.1
  let candidates := p.2.1
  let btr := p.2.2
  if btr > 0 && !candidates.isEmpty then
    let sorted := sortByLastAccessed candidates
    let s := lruHeuristicLoop now
      { backing := sorted, cur := sorted.length, btr := btr,
        toDelete := toDelete, panicked := false }
      (List.range sorted.length)
    if s.panicked then none
    else some (lruFallbackLoop s.btr s.toDelete (s.backing.take s.cur))
  else some toDelete

/-- The cache entry the pruner sees for a stored object
(`Service.List`, internal/cache service lines 192-232): the key is the
`cache_key` metadata with the object name as fallback, the size is the
authoritative stored size, and `last_accessed` is the parsed metadata
value with the store's update time as fallback. -/
def entryOfObj (name : Str) (o : Obj) : CacheEntry :=
  { key := if o.metaCacheKey.isEmpty then name else o.metaCacheKey,
    size := (o.data.length : Int),
    lastAccessed := o.metaLastAccessed.getD o.updatedAt,
    contentType := o.contentType,
    hash := [] }

/-- Model of `Service.List` over the whole bucket: the entries of all
stored objects in iteration order. -/
def cacheList (st : Store) : List CacheEntry :=
  st.map (fun p => entryOfObj p.1 p.2)

/-- Model of `Service.GetTotalSize`: the sum of the stored object sizes. -/
def storeTotalSize (st : Store) : Int :=
  (st.map (fun p => ((p.2.data.length : Int)))).sum

/-- The pruning target size, 80 percent of the configured maximum
(service.go line 96).  The source computes
`int64(float64(MaxCacheSize) * 0.8)`; for every realistic size (any value
below 2^51 bytes) the float64 product's rounding error is under half an
ulp and the truncated value is exactly `⌊4m/5⌋`, which is what the model
computes. -/
def targetSizeOf (m : Int) : Int := 4 * m / 5

/-- Model of `Service.RunPruning` (service.go lines 70-138) up to the
deletion requests it issues: measure the total size, return with no
deletions when it is within the budget, and otherwise select the entries
to delete for the deficit `total - targetSize`.  Deletion errors only
skip the affected entry, so the selected list is exactly the set of
attempted deletions. -/
def runPruningSelect (cfg : PruneConfig) (st : Store) (now : Int) :
    Option (List CacheEntry) :=
  let totalSize := storeTotalSize st
  if totalSize ≤ cfg.maxCacheSize then some []
  else
    let targetSize := targetSizeOf cfg.maxCacheSize
    let bytesToRemove := totalSize - targetSize
    let entries := cacheList st
    selectEntriesForDeletion cfg now entries bytesToRemove

/-! Helper lemmas about the store and chunking. -/

theorem storeFind_storeSet_self (st : Store) (n : Str) (o : Obj) :
    storeFind (storeSet st n o) n = some o := by
  induction st with
  | nil => simp [storeSet, storeFind]
  | cons p rest ih =>
    by_cases hp : p.1 = n
    · simp [storeSet, hp, storeFind]
    · simp [storeSet, hp, storeFind, ih]

theorem storeFind_storeTouch (st : Store) (n : Str) (t : Int) (obj : Obj)
    (h : storeFind st n = some obj) :
    storeFind (storeTouch st n t) n =
      some { obj with metaLastAccessed := some t, updatedAt := t } := by
  induction st with
  | nil => simp [storeFind] at h
  | cons p rest ih =>
    obtain ⟨k, o⟩ := p
    by_cases hp : k = n
    · subst hp
      simp [storeFind] at h
      subst h
      simp [storeTouch, storeFind]
    · simp [storeFind, hp] at h
      have hr := ih h
      simp [storeTouch, storeFind, hp, hr]

theorem chunksOfAux_flatten {α : Type} (k : Nat) (hk : 0 < k) :
    ∀ (fuel : Nat) (l : List α), l.length ≤ fuel →
      (chunksOfAux k fuel l).flatten = l := by
  intro fuel
  induction fuel with
  | zero =>
    intro l h
    match l with
    | [] => rfl
    | a :: r => simp at h
  | succ n ih =>
    intro l h
    match l with
    | [] => rfl
    | a :: r =>
      have hlen : ((a :: r).drop k).length ≤ n := by
        simp only [List.length_drop]
        simp only [List.length_cons] at h ⊢
        omega
      calc (chunksOfAux k (n + 1) (a :: r)).flatten
          = (a :: r).take k ++ (chunksOfAux k n ((a :: r).drop k)).flatten := by
            simp [chunksOfAux]
        _ = (a :: r).take k ++ (a :: r).drop k := by rw [ih _ hlen]
        _ = a :: r := List.take_append_drop k (a :: r)

theorem chunksOf_flatten {α : Type} (k : Nat) (hk : 0 < k) (l : List α) :
    (chunksOf k l).flatten = l :=
  chunksOfAux_flatten k hk l.length l le_rfl

theorem containsLoop_map_fst (env : GetEnv) (inst : Str) (now : Int) :
    ∀ (digests : List Digest) (st : Store),
      ((containsLoop env inst now st digests).2).map Prod.fst = digests := by
  intro digests
  induction digests with
  | nil => intro st; simp [containsLoop]
  | cons d rest ih => intro st; simp [containsLoop, ih]

theorem cacheGet_attrsTransient_error (st : Store) (env : GetEnv) (key : Str)
    (now : Int) (h : env.attrsTransient = true) :
    cacheGet st env key now = (st, .error .miss) ∨
    cacheGet st env key now = (st, .error .attrsFailed) := by
  unfold cacheGet
  cases hf : storeFind st (sanitizeKey key) with
  | none => exact Or.inl (by simp [hf])
  | some obj => exact Or.inr (by simp [hf, h])

theorem containsLoop_attrsTransient_all_false (env : GetEnv) (inst : Str)
    (now : Int) (h : env.attrsTransient = true) :
    ∀ (digests : List Digest) (st : Store),
      ((containsLoop env inst now st digests).2).map Prod.snd =
        digests.map (fun _ => false) := by
  intro digests
  induction digests with
  | nil => intro st; simp [containsLoop]
  | cons d rest ih =>
    intro st
    rcases cacheGet_attrsTransient_error st env (inst ++ '/' :: d.hash) now h with
      hc | hc <;> simp [containsLoop, hc, ih]

/-! The claims. -/

/-- C4, counterexample.  The claim asserts the object name is
`cache/ ++ sanitize(instance) ++ / ++ hash` and the mapping injective on
the instance grammar.  On the code the key `instance + "/" + hash` is
sanitized as a whole, so the separator itself becomes `_`: the name for
instance `teamA` and hash `abc` is `cache/teamA_abc`, not
`cache/teamA/abc`, and the grammar-valid instances `a/b` and `a_b`
collide for equal hash. -/
theorem objectName_shape_counterexample :
    objectName "teamA".toList "abc".toList ≠ "cache/teamA/abc".toList ∧
    objectName "a/b".toList ['h'] = objectName "a_b".toList ['h'] ∧
    validInstance "a/b".toList = true ∧ validInstance "a_b".toList = true ∧
    "a/b".toList ≠ "a_b".toList := by
  refine ⟨by decide, by decide, by decide, by decide, by decide⟩

/-- C4, amended.  The object name is `cache/` prepended to the
sanitization of the whole key `instance + "/" + hash`; the separator is
replaced by `_` like every other slash, and the mapping is not injective
on the instance grammar: the distinct valid instances `a/b` and `a_b`
yield the same object name for every hash. -/
theorem objectName_not_injective_on_grammar (hash : Str) :
    objectName "a/b".toList hash = objectName "a_b".toList hash ∧
    validInstance "a/b".toList = true ∧ validInstance "a_b".toList = true ∧
    "a/b".toList ≠ "a_b".toList := by
  refine ⟨?_, by decide, by decide, by decide⟩
  simp [objectName, sanitizeKey, replaceChar]

/-- C7.  A pruning cycle first measures the total size; within budget it
deletes nothing, otherwise it selects deletions for the deficit
`total - 4·max/5`, the 80-percent target utilization of the source
(`int64(float64(MaxCacheSize) * 0.8)`, exact for all realistic sizes). -/
theorem runPruning_noop_and_deficit (cfg : PruneConfig) (st : Store) (now : Int) :
    runPruningSelect cfg st now =
      if storeTotalSize st ≤ cfg.maxCacheSize then some []
      else selectEntriesForDeletion cfg now (cacheList st)
             (storeTotalSize st - 4 * cfg.maxCacheSize / 5) := by
  rfl

/-- C10.  A successful `Put` reports `size = digest.size_bytes` exactly as
declared by the client, for every received byte stream; the stored
object's authoritative byte count is the stream length, which the
response does not consult. -/
theorem putResponse_size_is_declared (st : Store) (inst ct : Str) (d : Digest)
    (first : List Nat) (rest : List (List Nat)) (now : Int) :
    (serverPut st
        { metadata := some { digest := some d, instanceName := inst, contentType := ct },
          firstData := first, rest := rest, recvError := false } now).2 =
      .ok { digest := d, size := d.sizeBytes } ∧
    ∃ o, storeFind (serverPut st
        { metadata := some { digest := some d, instanceName := inst, contentType := ct },
          firstData := first, rest := rest, recvError := false } now).1
        (objectName inst d.hash) = some o ∧ o.data = first ++ rest.flatten := by
  constructor
  · rfl
  · refine ⟨{ data := first ++ rest.flatten, contentType := ct,
              metaCacheKey := inst ++ '/' :: d.hash, metaStoredAt := now,
              metaLastAccessed := some now, updatedAt := now }, ?_, rfl⟩
    simp [serverPut, cachePut, objectName, storeFind_storeSet_self]

/-- C1, counterexample.  The claim asserts a `Put` whose bytes hash to a
value other than the declared digest fails with `InvalidArgument` and
leaves the entry absent.  On the code: declare the digest of `A` but
stream `B` — the `Put` succeeds and a subsequent `Get` of the declared
digest returns the byte `B`. -/
theorem put_digest_mismatch_committed :
    sha256Hex [0x42] ≠ sha256Hex [0x41] ∧
    (serverPut []
        { metadata := some
            { digest := some { hash := sha256Hex [0x41], sizeBytes := 1 },
              instanceName := "teamA".toList, contentType := [] },
          firstData := [0x42], rest := [], recvError := false } 0).2 =
      .ok { digest := { hash := sha256Hex [0x41], sizeBytes := 1 }, size := 1 } ∧
    (serverGet
        (serverPut []
          { metadata := some
              { digest := some { hash := sha256Hex [0x41], sizeBytes := 1 },
                instanceName := "teamA".toList, contentType := [] },
            firstData := [0x42], rest := [], recvError := false } 0).1
        envOk (some { hash := sha256Hex [0x41], sizeBytes := 1 })
        "teamA".toList 1).2 = .ok [[0x42]] := by
  refine ⟨by decide, by decide, by decide⟩

/-- C1, amended.  `Put` performs no digest verification: for every
declared digest and every successfully received stream — in particular
one whose SHA-256 differs from the declared hash — the call succeeds with
the declared digest echoed back, and the received bytes are committed
under the declared digest's object name. -/
theorem put_ignores_declared_digest (st : Store) (inst ct : Str) (d : Digest)
    (first : List Nat) (rest : List (List Nat)) (now : Int)
    (_hmismatch : sha256Hex (first ++ rest.flatten) ≠ d.hash) :
    (serverPut st
        { metadata := some { digest := some d, instanceName := inst, contentType := ct },
          firstData := first, rest := rest, recvError := false } now).2 =
      .ok { digest := d, size := d.sizeBytes } ∧
    ∃ o, storeFind (serverPut st
        { metadata := some { digest := some d, instanceName := inst, contentType := ct },
          firstData := first, rest := rest, recvError := false } now).1
        (objectName inst d.hash) = some o ∧ o.data = first ++ rest.flatten := by
  constructor
  · rfl
  · refine ⟨{ data := first ++ rest.flatten, contentType := ct,
              metaCacheKey := inst ++ '/' :: d.hash, metaStoredAt := now,
              metaLastAccessed := some now, updatedAt := now }, ?_, rfl⟩
    simp [serverPut, cachePut, objectName, storeFind_storeSet_self]

/-- C1, witness for the amended theorem at the concrete mismatch of the
specification's scenario: digest of `A` declared, byte `B` streamed. -/
theorem put_ignores_declared_digest_witness :
    (serverPut []
        { metadata := some
            { digest := some { hash := sha256Hex [0x41], sizeBytes := 1 },
              instanceName := "teamA".toList, contentType := [] },
          firstData := [0x42], rest := [], recvError := false } 0).2 =
      .ok { digest := { hash := sha256Hex [0x41], sizeBytes := 1 }, size := 1 } ∧
    ∃ o, storeFind (serverPut []
        { metadata := some
            { digest := some { hash := sha256Hex [0x41], sizeBytes := 1 },
              instanceName := "teamA".toList, contentType := [] },
          firstData := [0x42], rest := [], recvError := false } 0).1
        (objectName "teamA".toList (sha256Hex [0x41])) = some o ∧
        o.data = [0x42] ++ ([] : List (List Nat)).flatten :=
  put_ignores_declared_digest [] "teamA".toList [] _ [0x42] [] 0 (by decide)

/-- C2, counterexample.  The claim asserts a mid-stream `Put` failure
leaves no visible object, a subsequent `Get` returning `NotFound`.  On
the code: the receive goroutine closes the pipe without an error, so the
bytes received before the failure are committed; the `Put` reports
`Internal`, yet a `Get` of the digest returns the partial bytes. -/
theorem put_midstream_failure_commits_partial :
    (serverPut []
        { metadata := some
            { digest := some { hash := ['h'], sizeBytes := 100 },
              instanceName := "teamA".toList, contentType := [] },
          firstData := [1, 2, 3], rest := [], recvError := true } 0).2 =
      .error (.internal "failed to stream data".toList) ∧
    (serverGet
        (serverPut []
          { metadata := some
              { digest := some { hash := ['h'], sizeBytes := 100 },
                instanceName := "teamA".toList, contentType := [] },
            firstData := [1, 2, 3], rest := [], recvError := true } 0).1
        envOk (some { hash := ['h'], sizeBytes := 100 })
        "teamA".toList 1).2 = .ok [[1, 2, 3]] := by
  refine ⟨by decide, by decide⟩

/-- C2, amended.  When a `Put` stream fails mid-transfer the RPC returns
`Internal`, but the pipe is closed as a normal end of stream, so all
chunks received before the failure are committed as the object; a
subsequent `Get` of the declared digest succeeds and streams exactly
those bytes. -/
theorem put_midstream_failure_partial_visible (st : Store) (inst ct : Str)
    (d : Digest) (first : List Nat) (rest : List (List Nat)) (now now2 : Int) :
    (serverPut st
        { metadata := some { digest := some d, instanceName := inst, contentType := ct },
          firstData := first, rest := rest, recvError := true } now).2 =
      .error (.internal "failed to stream data".toList) ∧
    (serverGet (serverPut st
        { metadata := some { digest := some d, instanceName := inst, contentType := ct },
          firstData := first, rest := rest, recvError := true } now).1
        envOk (some d) inst now2).2 =
      .ok (chunksOf 65536 (first ++ rest.flatten)) ∧
    (chunksOf 65536 (first ++ rest.flatten)).flatten = first ++ rest.flatten := by
  refine ⟨rfl, ?_, chunksOf_flatten 65536 (by omega) _⟩
  simp [serverPut, serverGet, cacheGet, cachePut, envOk, storeFind_storeSet_self]

/-- C8.  A failure of the `last_accessed` metadata patch is never surfaced
on the get path: whenever the object exists, its attribute fetch succeeds
and the reader opens, `Service.Get` returns the bytes and an entry — with
`updateOk` unconstrained, in particular when the patch fails. -/
theorem get_metadata_patch_failure_not_surfaced (st : Store) (env : GetEnv)
    (key : Str) (now : Int) (obj : Obj)
    (hfind : storeFind st (sanitizeKey key) = some obj)
    (hattrs : env.attrsTransient = false) (hreader : env.readerOk = true) :
    ∃ entry, (cacheGet st env key now).2 = .ok (obj.data, entry) := by
  refine ⟨{ key := key, size := (obj.data.length : Int),
            lastAccessed := obj.updatedAt, contentType := obj.contentType,
            hash := [] }, ?_⟩
  simp [cacheGet, hfind, hattrs, hreader]

/-- C8, witness: a present object, a healthy stat and reader, and a failing
metadata patch still yield a successful get. -/
theorem get_metadata_patch_failure_not_surfaced_witness :
    ∃ entry,
      (cacheGet [(sanitizeKey ['k'],
          { data := [7], contentType := [], metaCacheKey := ['k'],
            metaStoredAt := 0, metaLastAccessed := some 0, updatedAt := 0 })]
        { attrsTransient := false, updateOk := false, readerOk := true,
          readMidOk := true, sendOk := true }
        ['k'] 5).2 = .ok ([7], entry) :=
  get_metadata_patch_failure_not_surfaced
    [(sanitizeKey ['k'],
      { data := [7], contentType := [], metaCacheKey := ['k'],
        metaStoredAt := 0, metaLastAccessed := some 0, updatedAt := 0 })]
    { attrsTransient := false, updateOk := false, readerOk := true,
      readMidOk := true, sendOk := true }
    ['k'] 5
    { data := [7], contentType := [], metaCacheKey := ['k'],
      metaStoredAt := 0, metaLastAccessed := some 0, updatedAt := 0 }
    (by simp [storeFind]) rfl rfl

/-- C9.  A `Contains` probe of an existing entry is not side-effect-free:
it runs the full get path, so with a healthy backend the probe reports
`true` and rewrites the entry's `last_accessed` metadata to the probe
time — the same field the pruner's LRU ordering reads through
`Service.List`. -/
theorem contains_probe_touches_lastAccessed (st : Store) (d : Digest)
    (inst : Str) (now : Int) (obj : Obj)
    (hfind : storeFind st (objectName inst d.hash) = some obj) :
    (serverContains st envOk [d] inst now).2 = .ok [(d, true)] ∧
    storeFind (serverContains st envOk [d] inst now).1 (objectName inst d.hash) =
      some { obj with metaLastAccessed := some now, updatedAt := now } ∧
    (entryOfObj (objectName inst d.hash)
        { obj with metaLastAccessed := some now, updatedAt := now }).lastAccessed =
      now := by
  unfold objectName at hfind
  have htouch := storeFind_storeTouch st (sanitizeKey (inst ++ '/' :: d.hash)) now obj hfind
  refine ⟨?_, ?_, ?_⟩
  · simp [serverContains, containsLoop, cacheGet, hfind, envOk]
  · simp [serverContains, containsLoop, cacheGet, hfind, envOk, objectName, htouch]
  · simp [entryOfObj]

/-- C9, witness: probing the single stored digest flips its
`last_accessed` metadata to the probe time. -/
theorem contains_probe_touches_lastAccessed_witness :
    (serverContains
        [(objectName ['i'] ['h'],
          { data := [7], contentType := [], metaCacheKey := ['k'],
            metaStoredAt := 0, metaLastAccessed := some 0, updatedAt := 0 })]
        envOk [{ hash := ['h'], sizeBytes := 1 }] ['i'] 9).2 =
      .ok [({ hash := ['h'], sizeBytes := 1 }, true)] ∧
    storeFind (serverContains
        [(objectName ['i'] ['h'],
          { data := [7], contentType := [], metaCacheKey := ['k'],
            metaStoredAt := 0, metaLastAccessed := some 0, updatedAt := 0 })]
        envOk [{ hash := ['h'], sizeBytes := 1 }] ['i'] 9).1
        (objectName ['i'] ['h']) =
      some { data := [7], contentType := [], metaCacheKey := ['k'],
             metaStoredAt := 0, metaLastAccessed := some 9, updatedAt := 9 } ∧
    (entryOfObj (objectName ['i'] ['h'])
        { data := [7], contentType := [], metaCacheKey := ['k'],
          metaStoredAt := 0, metaLastAccessed := some 9, updatedAt := 9 }).lastAccessed =
      9 :=
  contains_probe_touches_lastAccessed
    [(objectName ['i'] ['h'],
      { data := [7], contentType := [], metaCacheKey := ['k'],
        metaStoredAt := 0, metaLastAccessed := some 0, updatedAt := 0 })]
    { hash := ['h'], sizeBytes := 1 } ['i'] 9
    { data := [7], contentType := [], metaCacheKey := ['k'],
      metaStoredAt := 0, metaLastAccessed := some 0, updatedAt := 0 }
    (by simp [storeFind])

/-- C6, counterexample.  The claim asserts a backend error on the get path
is surfaced as `Internal`, never `NotFound`.  On the code every
`Service.Get` failure — here a transient attribute-fetch error on an
existing object — is returned as `NotFound` with message `cache miss`. -/
theorem get_backend_error_returns_notFound :
    (serverGet
        [(objectName ['i'] ['h'],
          { data := [7], contentType := [], metaCacheKey := ['k'],
            metaStoredAt := 0, metaLastAccessed := some 0, updatedAt := 0 })]
        { attrsTransient := true, updateOk := true, readerOk := true,
          readMidOk := true, sendOk := true }
        (some { hash := ['h'], sizeBytes := 1 }) ['i'] 0).2 =
      .error (.notFound "cache miss".toList) := by
  decide

/-- C6, amended.  The `Get` RPC returns `InvalidArgument` only for a
missing digest; every `Service.Get` failure — miss, backend stat error or
reader-open failure alike — is mapped to `NotFound` with message
`cache miss`, and `Internal` arises only from mid-stream read or send
failures after a successful open. -/
theorem get_all_cache_errors_map_to_notFound (st : Store) (env : GetEnv)
    (d : Digest) (inst : Str) (now : Int)
    (h : ∃ e, (cacheGet st env (inst ++ '/' :: d.hash) now).2 = .error e) :
    (serverGet st env (some d) inst now).2 =
      .error (.notFound "cache miss".toList) := by
  obtain ⟨e, he⟩ := h
  simp [serverGet, he]

/-- C6, witness: a miss on the empty store surfaces as `NotFound`. -/
theorem get_all_cache_errors_map_to_notFound_witness :
    (serverGet [] envOk (some { hash := ['h'], sizeBytes := 1 }) ['i'] 0).2 =
      .error (.notFound "cache miss".toList) :=
  get_all_cache_errors_map_to_notFound [] envOk
    { hash := ['h'], sizeBytes := 1 } ['i'] 0 ⟨.miss, by decide⟩

/-- C5, counterexample.  The claim asserts `Contains` performs a stat-only
probe and that a transient backend error fails the whole call.  On the
code each probe is a full `Service.Get`, and a transient attribute error
on an existing entry merely reports `false` for that digest while the
call succeeds. -/
theorem contains_transient_error_reports_false :
    (serverContains
        [(objectName ['i'] ['h'],
          { data := [7], contentType := [], metaCacheKey := ['k'],
            metaStoredAt := 0, metaLastAccessed := some 0, updatedAt := 0 })]
        { attrsTransient := true, updateOk := true, readerOk := true,
          readMidOk := true, sendOk := true }
        [{ hash := ['h'], sizeBytes := 1 }] ['i'] 0).2 =
      .ok [({ hash := ['h'], sizeBytes := 1 }, false)] := by
  decide

/-- C5, amended.  `Contains` probes every digest through the full get path
in input order; the call never fails on backend errors — any per-digest
failure, transient included, is reported as `false` — and only an empty
digest list is rejected, with `InvalidArgument`. -/
theorem contains_always_ok_order_preserved (st : Store) (env : GetEnv)
    (digests : List Digest) (inst : Str) (now : Int) (h : digests ≠ []) :
    ∃ rs, (serverContains st env digests inst now).2 = .ok rs ∧
      rs.map Prod.fst = digests ∧
      (env.attrsTransient = true →
        rs.map Prod.snd = digests.map (fun _ => false)) := by
  match digests, h with
  | d :: rest, _ =>
    refine ⟨(containsLoop env inst now st (d :: rest)).2, rfl, ?_, ?_⟩
    · exact containsLoop_map_fst env inst now (d :: rest) st
    · intro ht
      exact containsLoop_attrsTransient_all_false env inst now ht (d :: rest) st

/-- C5, witness: a two-digest probe against a transient backend succeeds
and reports `false` twice, in order. -/
theorem contains_always_ok_order_preserved_witness :
    ∃ rs,
      (serverContains
          [(objectName ['i'] ['h'],
            { data := [7], contentType := [], metaCacheKey := ['k'],
              metaStoredAt := 0, metaLastAccessed := some 0, updatedAt := 0 })]
          { attrsTransient := true, updateOk := true, readerOk := true,
            readMidOk := true, sendOk := true }
          [{ hash := ['h'], sizeBytes := 1 }, { hash := ['g'], sizeBytes := 2 }]
          ['i'] 0).2 = .ok rs ∧
      rs.map Prod.fst =
        [{ hash := ['h'], sizeBytes := 1 }, { hash := ['g'], sizeBytes := 2 }] ∧
      (({ attrsTransient := true, updateOk := true, readerOk := true,
          readMidOk := true, sendOk := true } : GetEnv).attrsTransient = true →
        rs.map Prod.snd =
          [({ hash := ['h'], sizeBytes := 1 } : Digest),
           { hash := ['g'], sizeBytes := 2 }].map (fun _ => false)) :=
  contains_always_ok_order_preserved
    [(objectName ['i'] ['h'],
      { data := [7], contentType := [], metaCacheKey := ['k'],
        metaStoredAt := 0, metaLastAccessed := some 0, updatedAt := 0 })]
    { attrsTransient := true, updateOk := true, readerOk := true,
      readMidOk := true, sendOk := true }
    [{ hash := ['h'], sizeBytes := 1 }, { hash := ['g'], sizeBytes := 2 }]
    ['i'] 0 (by decide)

/-- C3, counterexample.  The claim asserts no pruning cycle deletes an
entry within the retention floor (in particular one younger than 24
hours), regardless of budget pressure.  On the code: a bucket holding one
200-byte object last accessed one hour ago, with a 100-byte budget and a
30-day retention period, prunes that object — the heuristic pass skips it
but the fallback pass deletes it unconditionally. -/
theorem pruner_deletes_hour_old_entry :
    runPruningSelect { maxCacheSize := 100, retentionDays := 30 }
        [(['n'],
          { data := List.replicate 200 0, contentType := [], metaCacheKey := ['k'],
            metaStoredAt := 0,
            metaLastAccessed := some (1000000 * nsPerHour - nsPerHour),
            updatedAt := 1000000 * nsPerHour - nsPerHour })]
        (1000000 * nsPerHour) =
      some [entryOfObj ['n']
        { data := List.replicate 200 0, contentType := [], metaCacheKey := ['k'],
          metaStoredAt := 0,
          metaLastAccessed := some (1000000 * nsPerHour - nsPerHour),
          updatedAt := 1000000 * nsPerHour - nsPerHour }] ∧
    1000000 * nsPerHour -
        (entryOfObj ['n']
          { data := List.replicate 200 0, contentType := [], metaCacheKey := ['k'],
            metaStoredAt := 0,
            metaLastAccessed := some (1000000 * nsPerHour - nsPerHour),
            updatedAt := 1000000 * nsPerHour - nsPerHour }).lastAccessed <
      24 * nsPerHour := by
  refine ⟨by decide, by decide⟩

/-- C3, amended.  The 24-hour floor is honored only by the heuristic pass:
an entry inside the retention period whose `shouldDelete` heuristic says
keep — in particular any entry younger than 24 hours — is still deleted
by the unconditional fallback pass whenever the byte deficit is positive
when that pass runs; for a lone such entry the cycle selects it. -/
theorem lru_fallback_ignores_retention_floor (cfg : PruneConfig)
    (now btr : Int) (e : CacheEntry)
    (hbtr : 0 < btr)
    (hyoung : ¬ e.lastAccessed < now - cfg.retentionDays * 24 * nsPerHour)
    (hkeep : shouldDelete e now = false) :
    selectEntriesForDeletion cfg now [e] btr = some [e] := by
  have hbtr' : ¬ btr ≤ 0 := not_le.mpr hbtr
  simp [selectEntriesForDeletion, pruneFirstPass, hyoung, hbtr',
        sortByLastAccessed, insertByLastAccessed, List.range_succ,
        lruHeuristicLoop, hkeep, lruFallbackLoop]

/-- C3, witness for the amended theorem: a one-hour-old 200-byte entry and
a positive deficit of 120 bytes. -/
theorem lru_fallback_ignores_retention_floor_witness :
    selectEntriesForDeletion { maxCacheSize := 100, retentionDays := 30 }
        (1000000 * nsPerHour)
        [{ key := ['k'], size := 200,
           lastAccessed := 1000000 * nsPerHour - nsPerHour,
           contentType := [], hash := [] }] 120 =
      some [{ key := ['k'], size := 200,
              lastAccessed := 1000000 * nsPerHour - nsPerHour,
              contentType := [], hash := [] }] :=
  lru_fallback_ignores_retention_floor
    { maxCacheSize := 100, retentionDays := 30 } (1000000 * nsPerHour) 120
    { key := ['k'], size := 200, lastAccessed := 1000000 * nsPerHour - nsPerHour,
      contentType := [], hash := [] }
    (by decide) (by decide) (by decide)

end BuildCache
